import Mathlib

/-!
# go_asm_module: the demonstration driver and the benchmark runner

A shallow embedding of `main.go` and `benchmark.go`.

* Go `int64` and `int` (64 bit on arm64) values are integers; every arithmetic result is
  reduced with `wrap64`, Go's two's-complement wrap-around.
* A run is the list of its observable events, in program order: the lines written to
  standard output, the calls made to the assembly routines, and the native expressions the
  benchmark bodies evaluate and discard.
* The assembly routines are opaque to the Go code, so `main` takes them as a parameter
  (`Foreign`).  The wall-clock durations measured by the benchmarks are inputs as well
  (`Timings`).
* Loops that Go does not bound structurally take a fuel argument; `none` means that the loop
  has not finished within the fuel given.
-/

namespace GoAsm

/-! ## Machine integers -/

/-- Value of a 64-bit two's-complement register holding the integer `z`. -/
def wrap64 (z : Int) : Int := (z + 2 ^ 63) % 2 ^ 64 - 2 ^ 63

/-- Range of Go's `int64`. -/
def InInt64 (z : Int) : Prop := -2 ^ 63 ≤ z ∧ z < 2 ^ 63

instance (z : Int) : Decidable (InInt64 z) := by unfold InInt64; infer_instance

/-! ## Observable events -/

/-- Operand of a formatted print, tagged with the Go type it is printed from. -/
inductive Arg where
  | int (v : Int)
  | str (s : String)
  | ints (vs : List Int)
  | dur (ns : Int)
  | nsPerOp (ns : Int) (n : Int)
deriving DecidableEq

/-- Observable steps of a run.  `println` and `printf` write to standard output, the `call`
events are invocations of the assembly routines with their arguments (a pointer argument is
the memory readable from it: the cells from the addressed slice element to the end of the
slice), `goAdd` and `goMul` are the native expressions a benchmark body evaluates. -/
inductive Event where
  | println (s : String)
  | printf (fmt : String) (args : List Arg)
  | callAdd (a b : Int)
  | callMul (a b : Int)
  | callFact (n : Int)
  | callStrlen (mem : List Nat)
  | callSumArray (mem : List Int) (length : Int)
  | goAdd (a b : Int)
  | goMul (a b : Int)
deriving DecidableEq

/-- Operand pair of an addition or multiplication event. -/
def Event.operands : Event → Option (Int × Int)
  | .callAdd a b => some (a, b)
  | .callMul a b => some (a, b)
  | .goAdd a b => some (a, b)
  | .goMul a b => some (a, b)
  | _ => none

/-- Ways in which a modelled run stops without completing: Go's index-out-of-range panic, and
the fuel of a loop running out. -/
inductive Fault where
  | indexOutOfRange
  | outOfFuel
deriving DecidableEq

deriving instance DecidableEq for Except

/-- The five assembly routines declared in `main.go` (lines 9-13), as seen from Go: functions
of their arguments whose bodies are not Go code. -/
structure Foreign where
  add_asm : Int → Int → Int
  multiply_asm : Int → Int → Int
  factorial_asm : Int → Int
  strlen_asm : List Nat → Int
  sum_array_asm : List Int → Int → Int

/-- A foreign implementation that returns 0 from every routine. -/
def zeroForeign : Foreign := ⟨fun _ _ => 0, fun _ _ => 0, fun _ => 0, fun _ => 0, fun _ _ => 0⟩

/-! ## `factorial_go` (main.go, lines 70-79) -/

/-- Outcome of a run of `factorial_go`: the value returned and, for every execution of the
loop body, the pair `(i, result)` of the counter and the accumulator on entry to the body. -/
structure FactRun where
  result : Int
  steps : List (Int × Int)
deriving DecidableEq

/-- The loop `for i := int64(2); i <= n; i++ { result *= i }`, from the state `(i, result)`. -/
def factorialLoop (n : Int) : Nat → Int → Int → List (Int × Int) → Option FactRun
  | 0, _, _, _ => none
  | fuel + 1, i, result, steps =>
    if i ≤ n then
      factorialLoop n fuel (wrap64 (i + 1)) (wrap64 (result * i)) (steps ++ [(i, result)])
    else some ⟨result, steps⟩

/-- The body of `factorial_go`, instrumented with the loop steps. -/
def factorialRun (fuel : Nat) (n : Int) : Option FactRun :=
  if n ≤ 1 then some ⟨1, []⟩ else factorialLoop n fuel 2 1 []

/-- The Go function `factorial_go`. -/
def factorial_go (fuel : Nat) (n : Int) : Option Int :=
  (factorialRun fuel n).map FactRun.result

/-! ## Strings, slices and the built-ins used by `main` -/

/-- Go's `len` of a string: its number of bytes. -/
def goLen (s : String) : Nat := s.utf8ByteSize

/-- Bytes of a Go string. -/
def goBytes (s : String) : List Nat := (s.data.flatMap String.utf8EncodeChar).map UInt8.toNat

/-- Go's `make([]byte, n)`: `n` zero bytes. -/
def make (n : Nat) : List Nat := List.replicate n 0

/-- Go's `copy(dst, src)`: the first `min (len dst) (len src)` elements are overwritten. -/
def copy (dst src : List Nat) : List Nat := src.take dst.length ++ dst.drop src.length

/-- Indexed store `xs[i] = v`, with Go's bounds check. -/
def setIndex {α : Type} (xs : List α) (i : Nat) (v : α) : Except Fault (List α) :=
  if i < xs.length then .ok (xs.set i v) else .error .indexOutOfRange

/-- Address `&xs[i]`, with Go's bounds check; the pointer is the memory readable from it. -/
def addrOf {α : Type} (xs : List α) (i : Nat) : Except Fault (List α) :=
  if i < xs.length then .ok (xs.drop i) else .error .indexOutOfRange

/-- The loop `goSum := int64(0); for _, num := range numbers { goSum += num }`
(main.go, lines 57-60). -/
def goSumLoop (numbers : List Int) : Int := Id.run do
  let mut goSum : Int := 0
  for num in numbers do
    goSum := wrap64 (goSum + num)
  return goSum

/-- The string literal of main.go, line 35. -/
def testStr : String := "Hello, ARM64 Assembly!"

/-- The slice literal of main.go, line 45. -/
def numbers : List Int := [1, 2, 3, 4, 5, 6, 7, 8, 9, 10]

/-- Index of the first zero byte of a buffer, if it has one: the length of the C string that
starts at the buffer's first byte. -/
def firstZero : List Nat → Option Nat
  | [] => none
  | b :: rest => if b = 0 then some 0 else (firstZero rest).map (· + 1)

/-! ## The benchmark runner (benchmark.go) -/

/-- Durations measured by the four benchmarks, in nanoseconds (`time.Since(start)`). -/
structure Timings where
  addGo : Int
  addASM : Int
  mulGo : Int
  mulASM : Int

/-- The constant `iterations` (benchmark.go, line 8). -/
def iterations : Int := 10000000

/-- The loop `for i := 0; i < bound; i++ { body }`, from counter value `i`, appending the
event of each body execution to `evs`. -/
def forLoop (bound : Int) (body : Int → Event) : Nat → Int → List Event → Option (List Event)
  | 0, _, _ => none
  | fuel + 1, i, evs =>
    if i < bound then forLoop bound body fuel (wrap64 (i + 1)) (evs ++ [body i]) else some evs

/-- The report line each benchmark prints after its loop. -/
def benchReport (label : String) (duration : Int) : Event :=
  .printf (label ++ ": %d iterations in %v (%.2f ns/op)\n")
    [.int iterations, .dur duration, .nsPerOp duration iterations]

/-- The Go function `BenchmarkAddASM`. -/
def BenchmarkAddASM (duration : Int) (fuel : Nat) : Option (List Event) := do
  let evs ← forLoop iterations (fun i => .callAdd i (wrap64 (i + 1))) fuel 0 []
  pure (evs ++ [benchReport "ASM Addition" duration])

/-- The Go function `BenchmarkAddGo`. -/
def BenchmarkAddGo (duration : Int) (fuel : Nat) : Option (List Event) := do
  let evs ← forLoop iterations (fun i => .goAdd i (wrap64 (i + 1))) fuel 0 []
  pure (evs ++ [benchReport "Go Addition" duration])

/-- The Go function `BenchmarkMultiplyASM`; Go's `%` truncates towards zero. -/
def BenchmarkMultiplyASM (duration : Int) (fuel : Nat) : Option (List Event) := do
  let evs ← forLoop iterations
    (fun i => .callMul (i.tmod 1000) ((wrap64 (i + 1)).tmod 1000)) fuel 0 []
  pure (evs ++ [benchReport "ASM Multiplication" duration])

/-- The Go function `BenchmarkMultiplyGo`. -/
def BenchmarkMultiplyGo (duration : Int) (fuel : Nat) : Option (List Event) := do
  let evs ← forLoop iterations
    (fun i => .goMul (i.tmod 1000) ((wrap64 (i + 1)).tmod 1000)) fuel 0 []
  pure (evs ++ [benchReport "Go Multiplication" duration])

/-- The Go function `runBenchmarks`. -/
def runBenchmarks (t : Timings) (fuel : Nat) : Option (List Event) := do
  let mut out : List Event := []
  out := out ++ [.println "\nPerformance Benchmarks:"]
  out := out ++ [.println "======================"]
  out := out ++ (← BenchmarkAddGo t.addGo fuel)
  out := out ++ (← BenchmarkAddASM t.addASM fuel)
  out := out ++ [.println ""]
  out := out ++ (← BenchmarkMultiplyGo t.mulGo fuel)
  out := out ++ (← BenchmarkMultiplyASM t.mulASM fuel)
  return out

/-! ## The demonstration driver (main.go) -/

/-- A loop that has not finished within its fuel stops the modelled run. -/
def orOutOfFuel {α : Type} : Option α → Except Fault α
  | some v => .ok v
  | none => .error .outOfFuel

/-- The Go function `main`. -/
def main (F : Foreign) (t : Timings) (fuel : Nat) : Except Fault (List Event) := do
  let mut out : List Event := []
  out := out ++ [.println "ARM64 Assembly Module Demo on macOS"]
  out := out ++ [.println "====================================="]
  let a : Int := 15
  let b : Int := 27
  let sum := F.add_asm a b
  out := out ++ [.callAdd a b, .printf "Addition: %d + %d = %d\n" [.int a, .int b, .int sum]]
  let x : Int := 8
  let y : Int := 9
  let product := F.multiply_asm x y
  out := out ++ [.callMul x y,
    .printf "Multiplication: %d * %d = %d\n" [.int x, .int y, .int product]]
  let n : Int := 6
  let fact := F.factorial_asm n
  out := out ++ [.callFact n, .printf "Factorial: %d! = %d\n" [.int n, .int fact]]
  let cStr ← setIndex (copy (make (goLen testStr + 1)) (goBytes testStr)) (goLen testStr) 0
  let cPtr ← addrOf cStr 0
  let strLen := F.strlen_asm cPtr
  out := out ++ [.callStrlen cPtr,
    .printf "String length of '%s': %d\n" [.str testStr, .int strLen]]
  let nPtr ← addrOf numbers 0
  let arraySum := F.sum_array_asm nPtr (wrap64 numbers.length)
  out := out ++ [.callSumArray nPtr (wrap64 numbers.length),
    .printf "Sum of array %v: %d\n" [.ints numbers, .int arraySum]]
  out := out ++ [.println "\nComparison with Go implementations:"]
  out := out ++ [.printf "Go addition: %d + %d = %d (ASM: %d)\n"
    [.int a, .int b, .int (wrap64 (a + b)), .int sum]]
  out := out ++ [.printf "Go multiplication: %d * %d = %d (ASM: %d)\n"
    [.int x, .int y, .int (wrap64 (x * y)), .int product]]
  let goFact ← orOutOfFuel (factorial_go fuel n)
  out := out ++ [.printf "Go factorial: %d! = %d (ASM: %d)\n" [.int n, .int goFact, .int fact]]
  let goSum := goSumLoop numbers
  out := out ++ [.printf "Go array sum: %d (ASM: %d)\n" [.int goSum, .int arraySum]]
  out := out ++ (← orOutOfFuel (runBenchmarks t fuel))
  out := out ++ [.println "\n✅ All assembly functions working correctly!"]
  return out

/-! ## The assembly routines, as the specification describes them -/

/-- Modelled from the spec: the assembly routine `add_asm`, whose source is not part of the
Go files; the specification calls it the addition routine on integer scalars. -/
def add_asm (a b : Int) : Int := wrap64 (a + b)

/-- Modelled from the spec: the assembly routine `multiply_asm`, whose source is not part of
the Go files; the specification calls it the multiplication routine on integer scalars. -/
def multiply_asm (a b : Int) : Int := wrap64 (a * b)

/-- Modelled from the spec: the assembly routine `factorial_asm`, whose source is not part of
the Go files; the specification calls it the factorial routine, so it is the factorial of its
argument in a 64-bit register. -/
def factorial_asm (n : Int) : Int := wrap64 (Nat.factorial n.toNat)

/-- Modelled from the spec: the assembly routine `sum_array_asm`, whose source is not part of
the Go files; the specification calls it the array-sum routine taking a base address and a
length.  It is defined where the `length` cells it reads lie inside the memory readable from
the pointer. -/
def sum_array_asm (mem : List Int) (length : Int) : Option Int :=
  if 0 ≤ length ∧ length.toNat ≤ mem.length then
    some ((mem.take length.toNat).foldl (fun s v => wrap64 (s + v)) 0)
  else none

/-! ## Arithmetic of `wrap64` -/

theorem wrap64_of_inInt64 {z : Int} (h : InInt64 z) : wrap64 z = z := by
  unfold InInt64 at h
  unfold wrap64
  rw [Int.emod_eq_of_lt (by omega) (by omega)]
  omega

theorem inInt64_wrap64 (z : Int) : InInt64 (wrap64 z) := by
  unfold InInt64 wrap64
  constructor <;> omega

theorem wrap64_mul_wrap64 (a b : Int) : wrap64 (wrap64 a * b) = wrap64 (a * b) := by
  unfold wrap64
  have h : (((a + 2 ^ 63) % 2 ^ 64 - 2 ^ 63) * b + 2 ^ 63) % 2 ^ 64
      = (a * b + 2 ^ 63) % 2 ^ 64 := by
    have e : ((a + 2 ^ 63) % 2 ^ 64 - 2 ^ 63) * b + 2 ^ 63
        = (a * b + 2 ^ 63) + 2 ^ 64 * (-(((a + 2 ^ 63) / 2 ^ 64) * b)) := by
      have := Int.emod_add_ediv (a + 2 ^ 63) (2 ^ 64)
      have h2 : (a + 2 ^ 63) % 2 ^ 64 = (a + 2 ^ 63) - 2 ^ 64 * ((a + 2 ^ 63) / 2 ^ 64) := by
        omega
      rw [h2]; ring
    rw [e, Int.add_mul_emod_self_left]
  rw [h]

/-! ## The counting loop of the benchmarks -/

theorem forLoop_run (bound : Int) (body : Int → Event) (hb : bound < 2 ^ 63) :
    ∀ (k fuel i : Nat) (evs : List Event), (i : Int) + k = bound → k < fuel →
      forLoop bound body fuel i evs
        = some (evs ++ (List.range k).map (fun j => body ((i + j : Nat) : Int))) := by
  intro k
  induction k with
  | zero =>
    intro fuel i evs hik hfuel
    obtain ⟨f, rfl⟩ : ∃ f, fuel = f + 1 := ⟨fuel - 1, by omega⟩
    have hlt : ¬ ((i : Int) < bound) := by omega
    simp [forLoop, hlt]
  | succ k ih =>
    intro fuel i evs hik hfuel
    obtain ⟨f, rfl⟩ : ∃ f, fuel = f + 1 := ⟨fuel - 1, by omega⟩
    have hlt : (i : Int) < bound := by omega
    have hw : wrap64 ((i : Int) + 1) = ((i + 1 : Nat) : Int) := by
      rw [wrap64_of_inInt64 (by unfold InInt64; omega)]; push_cast; rfl
    rw [forLoop, if_pos hlt, hw, ih f (i + 1) _ (by push_cast; omega) (by omega)]
    rw [List.range_succ_eq_map, List.map_cons, List.map_map, List.append_assoc]
    simp [Function.comp_def, Nat.add_assoc, Nat.add_comm 1]

theorem forLoop_from_zero (body : Int → Event) (N fuel : Nat) (hN : (N : Int) < 2 ^ 63)
    (hfuel : N < fuel) :
    forLoop (N : Int) body fuel 0 [] = some ((List.range N).map (fun (j : Nat) => body (j : Int))) := by
  have h := forLoop_run (N : Int) body hN N fuel 0 [] (by push_cast; omega) hfuel
  simp only [List.nil_append, Nat.zero_add, Nat.cast_zero] at h
  exact h

theorem forLoop_iterations (body : Int → Event) (fuel : Nat) (hfuel : 10000000 < fuel) :
    forLoop iterations body fuel 0 []
      = some ((List.range 10000000).map (fun (j : Nat) => body (j : Int))) :=
  forLoop_from_zero body 10000000 fuel (by norm_num) hfuel

theorem benchmark_eq (label : String) (body : Int → Event) (d : Int) (fuel : Nat)
    (hfuel : 10000000 < fuel) :
    (do let evs ← forLoop iterations body fuel 0 []
        pure (evs ++ [benchReport label d]) : Option (List Event))
      = some ((List.range 10000000).map (fun (j : Nat) => body (j : Int))
          ++ [benchReport label d]) := by
  rw [forLoop_iterations body fuel hfuel]
  rfl

theorem getElem?_loop_events (body : Int → Event) (tail : List Event) (N i : Nat)
    (hi : i < N) :
    ((List.range N).map (fun (j : Nat) => body (j : Int)) ++ tail)[i]? = some (body (i : Int)) := by
  rw [List.getElem?_append_left (by rw [List.length_map, List.length_range]; exact hi),
    List.getElem?_map, List.getElem?_range hi]
  rfl

theorem wrap64_succ_small (i : Nat) (hi : i < 10000000) :
    wrap64 ((i : Int) + 1) = ((i + 1 : Nat) : Int) := by
  rw [wrap64_of_inInt64 (by unfold InInt64; omega)]
  push_cast; rfl

theorem tmod_thousand (i : Nat) : ((i : Int)).tmod 1000 = ((i % 1000 : Nat) : Int) := by
  rw [Int.tmod_eq_emod (by omega) (by omega)]
  push_cast; rfl

/-! ## Benchmark runner: iteration count and operands -/

/-- C5: each of the four benchmark functions, given enough fuel, returns; its loop executes the
body exactly 10,000,000 times, once for each counter value 0, 1, ..., 9,999,999 in increasing
order, and after the loop only the report line follows. -/
theorem benchmark_loops_run_ten_million (d : Int) (fuel : Nat) (hfuel : 10000000 < fuel) :
    BenchmarkAddASM d fuel
      = some ((List.range 10000000).map (fun (i : Nat) => Event.callAdd i (wrap64 (i + 1)))
          ++ [benchReport "ASM Addition" d]) ∧
    BenchmarkAddGo d fuel
      = some ((List.range 10000000).map (fun (i : Nat) => Event.goAdd i (wrap64 (i + 1)))
          ++ [benchReport "Go Addition" d]) ∧
    BenchmarkMultiplyASM d fuel
      = some ((List.range 10000000).map
            (fun (i : Nat) => Event.callMul ((i : Int).tmod 1000) ((wrap64 (i + 1)).tmod 1000))
          ++ [benchReport "ASM Multiplication" d]) ∧
    BenchmarkMultiplyGo d fuel
      = some ((List.range 10000000).map
            (fun (i : Nat) => Event.goMul ((i : Int).tmod 1000) ((wrap64 (i + 1)).tmod 1000))
          ++ [benchReport "Go Multiplication" d]) ∧
    ∀ body : Nat → Event, ((List.range 10000000).map body).length = 10000000 := by
  refine ⟨?_, ?_, ?_, ?_, ?_⟩
  · exact benchmark_eq "ASM Addition" _ d fuel hfuel
  · exact benchmark_eq "Go Addition" _ d fuel hfuel
  · exact benchmark_eq "ASM Multiplication" _ d fuel hfuel
  · exact benchmark_eq "Go Multiplication" _ d fuel hfuel
  · intro body
    rw [List.length_map, List.length_range]

theorem benchmark_loops_run_ten_million_witness :
    10000000 < 10000001 ∧
    BenchmarkAddASM 0 10000001
      = some ((List.range 10000000).map (fun (i : Nat) => Event.callAdd i (wrap64 (i + 1)))
          ++ [benchReport "ASM Addition" 0]) :=
  ⟨by decide, (benchmark_loops_run_ten_million 0 10000001 (by decide)).1⟩

/-- C8: at iteration i of a benchmark loop (0 ≤ i < 10,000,000) the operand pair depends on i
alone and is the same in the assembly batch and in the Go batch: (i, i+1) for addition,
(i mod 1000, (i+1) mod 1000) for multiplication, whose operands lie in [0, 999]. -/
theorem benchmark_operands (dAsm dGo : Int) (fuel i : Nat) (hfuel : 10000000 < fuel)
    (hi : i < 10000000) :
    ∃ addAsm addGo mulAsm mulGo : List Event,
      BenchmarkAddASM dAsm fuel = some addAsm ∧ BenchmarkAddGo dGo fuel = some addGo ∧
      BenchmarkMultiplyASM dAsm fuel = some mulAsm ∧ BenchmarkMultiplyGo dGo fuel = some mulGo ∧
      addAsm[i]? = some (Event.callAdd i ((i : Int) + 1)) ∧
      addGo[i]? = some (Event.goAdd i ((i : Int) + 1)) ∧
      mulAsm[i]? = some (Event.callMul ((i % 1000 : Nat) : Int) (((i + 1) % 1000 : Nat) : Int)) ∧
      mulGo[i]? = some (Event.goMul ((i % 1000 : Nat) : Int) (((i + 1) % 1000 : Nat) : Int)) ∧
      addAsm[i]?.bind Event.operands = some ((i : Int), (i : Int) + 1) ∧
      addGo[i]?.bind Event.operands = some ((i : Int), (i : Int) + 1) ∧
      mulAsm[i]?.bind Event.operands
        = some (((i % 1000 : Nat) : Int), (((i + 1) % 1000 : Nat) : Int)) ∧
      mulGo[i]?.bind Event.operands
        = some (((i % 1000 : Nat) : Int), (((i + 1) % 1000 : Nat) : Int)) ∧
      i % 1000 ≤ 999 ∧ (i + 1) % 1000 ≤ 999 := by
  have hadd : wrap64 ((i : Int) + 1) = (i : Int) + 1 := by
    rw [wrap64_succ_small i hi]; push_cast; rfl
  have hm1 := tmod_thousand i
  have hm2 : (wrap64 ((i : Int) + 1)).tmod 1000 = (((i + 1) % 1000 : Nat) : Int) := by
    rw [wrap64_succ_small i hi, tmod_thousand]
  have e1 := getElem?_loop_events (fun k => Event.callAdd k (wrap64 (k + 1)))
    [benchReport "ASM Addition" dAsm] 10000000 i hi
  have e2 := getElem?_loop_events (fun k => Event.goAdd k (wrap64 (k + 1)))
    [benchReport "Go Addition" dGo] 10000000 i hi
  have e3 := getElem?_loop_events
    (fun k => Event.callMul (k.tmod 1000) ((wrap64 (k + 1)).tmod 1000))
    [benchReport "ASM Multiplication" dAsm] 10000000 i hi
  have e4 := getElem?_loop_events
    (fun k => Event.goMul (k.tmod 1000) ((wrap64 (k + 1)).tmod 1000))
    [benchReport "Go Multiplication" dGo] 10000000 i hi
  simp only [hadd, hm1, hm2] at e1 e2 e3 e4
  refine ⟨_, _, _, _, benchmark_eq "ASM Addition" _ dAsm fuel hfuel,
    benchmark_eq "Go Addition" _ dGo fuel hfuel,
    benchmark_eq "ASM Multiplication" _ dAsm fuel hfuel,
    benchmark_eq "Go Multiplication" _ dGo fuel hfuel, e1, e2, e3, e4, ?_, ?_, ?_, ?_, ?_, ?_⟩
  · rw [e1]; rfl
  · rw [e2]; rfl
  · rw [e3]; rfl
  · rw [e4]; rfl
  · omega
  · omega

theorem benchmark_operands_witness :
    10000000 < 10000001 ∧ 1999 < 10000000 ∧
    ∃ addAsm addGo mulAsm mulGo : List Event,
      BenchmarkAddASM 0 10000001 = some addAsm ∧ BenchmarkAddGo 0 10000001 = some addGo ∧
      BenchmarkMultiplyASM 0 10000001 = some mulAsm ∧
      BenchmarkMultiplyGo 0 10000001 = some mulGo ∧
      addAsm[1999]? = some (Event.callAdd 1999 2000) ∧
      addGo[1999]? = some (Event.goAdd 1999 2000) ∧
      mulAsm[1999]? = some (Event.callMul 999 0) ∧
      mulGo[1999]? = some (Event.goMul 999 0) := by
  refine ⟨by decide, by decide, ?_⟩
  obtain ⟨a, b, c, e, h1, h2, h3, h4, h5, h6, h7, h8, _⟩ :=
    benchmark_operands 0 0 10000001 1999 (by decide) (by decide)
  exact ⟨a, b, c, e, h1, h2, h3, h4, h5, h6, h7, h8⟩

/-! ## `factorial_go`: the loop -/

theorem factorialLoop_run (n : Int) (hn : n < 2 ^ 63 - 1) :
    ∀ (k fuel m : Nat) (steps : List (Int × Int)), 1 ≤ m → (m : Int) + k = n + 1 → k < fuel →
      factorialLoop n fuel m (wrap64 ((m - 1).factorial : Nat)) steps
        = some ⟨wrap64 (n.toNat.factorial : Nat),
            steps ++ (List.range k).map
              (fun j => (((m + j : Nat) : Int), wrap64 ((m + j - 1).factorial : Nat)))⟩ := by
  intro k
  induction k with
  | zero =>
    intro fuel m steps hm hmk hfuel
    obtain ⟨f, rfl⟩ : ∃ f, fuel = f + 1 := ⟨fuel - 1, by omega⟩
    have hgt : ¬ ((m : Int) ≤ n) := by omega
    have hnm : n.toNat = m - 1 := by omega
    simp [factorialLoop, hgt, hnm]
  | succ k ih =>
    intro fuel m steps hm hmk hfuel
    obtain ⟨f, rfl⟩ : ∃ f, fuel = f + 1 := ⟨fuel - 1, by omega⟩
    have hle : (m : Int) ≤ n := by omega
    have hw : wrap64 ((m : Int) + 1) = ((m + 1 : Nat) : Int) := by
      rw [wrap64_of_inInt64 (by unfold InInt64; omega)]; push_cast; rfl
    have hr : wrap64 (wrap64 ((m - 1).factorial : Nat) * (m : Int))
        = wrap64 ((m + 1 - 1).factorial : Nat) := by
      rw [wrap64_mul_wrap64]
      obtain ⟨p, rfl⟩ : ∃ p, m = p + 1 := ⟨m - 1, by omega⟩
      simp only [Nat.add_sub_cancel, Nat.factorial_succ]
      push_cast; ring_nf
    rw [factorialLoop, if_pos hle, hw, hr,
      ih f (m + 1) _ (by omega) (by push_cast; omega) (by omega)]
    rw [List.range_succ_eq_map, List.map_cons, List.map_map, List.append_assoc]
    simp [Function.comp_def, Nat.add_assoc, Nat.add_comm 1]

theorem factorialRun_of_le_one (n : Int) (h : n ≤ 1) (fuel : Nat) :
    factorialRun fuel n = some ⟨1, []⟩ := by
  simp [factorialRun, h]

theorem factorialRun_of_two_le (n : Int) (h2 : 2 ≤ n) (hn : n < 2 ^ 63 - 1) (fuel : Nat)
    (hfuel : n.toNat ≤ fuel) :
    factorialRun fuel n
      = some ⟨wrap64 (n.toNat.factorial : Nat),
          (List.range (n.toNat - 1)).map
            (fun j => (((2 + j : Nat) : Int), wrap64 ((2 + j - 1).factorial : Nat)))⟩ := by
  have h := factorialLoop_run n hn (n.toNat - 1) fuel 2 [] (by omega) (by omega) (by omega)
  have h1 : wrap64 (((2 - 1 : Nat).factorial : Nat) : Int) = 1 := by decide
  rw [h1] at h
  have hgt : ¬ (n ≤ 1) := by omega
  rw [factorialRun, if_neg hgt]
  simpa using h

theorem factorialLoop_never_exits (fuel : Nat) :
    ∀ (i result : Int) (steps : List (Int × Int)), InInt64 i →
      factorialLoop (2 ^ 63 - 1) fuel i result steps = none := by
  induction fuel with
  | zero => intro i result steps _; rfl
  | succ f ih =>
    intro i result steps hi
    have hle : i ≤ 2 ^ 63 - 1 := by unfold InInt64 at hi; omega
    rw [factorialLoop, if_pos hle]
    exact ih _ _ _ (inInt64_wrap64 _)

theorem factorial_lt_of_le_twenty (m : Nat) (h : m ≤ 20) : m.factorial < 2 ^ 63 :=
  lt_of_le_of_lt (Nat.factorial_le h) (by decide)

theorem factorial_ge_of_twentyone_le (m : Nat) (h : 21 ≤ m) : 2 ^ 63 ≤ m.factorial :=
  le_trans (by decide) (Nat.factorial_le h)

/-! ## `factorial_go`: correctness, wrap-around and termination -/

/-- C2: for 0 ≤ n ≤ 20, factorial_go returns the mathematical factorial of n and none of the
products formed in the loop leaves the int64 range; in particular factorial_go(6) = 720. -/
theorem factorial_go_exact_upto_twenty (n : Int) (h0 : 0 ≤ n) (h20 : n ≤ 20) (fuel : Nat)
    (hfuel : n.toNat ≤ fuel) :
    factorial_go fuel n = some ((n.toNat.factorial : Nat) : Int) ∧
    (∃ run, factorialRun fuel n = some run ∧
      ∀ p ∈ run.steps, InInt64 (p.2 * p.1) ∧ wrap64 (p.2 * p.1) = p.2 * p.1) ∧
    ∀ extra : Nat, factorial_go (6 + extra) 6 = some 720 := by
  have key : ∀ (m : Int) (f : Nat), 0 ≤ m → m ≤ 20 → m.toNat ≤ f →
      ∃ run, factorialRun f m = some run ∧ run.result = (m.toNat.factorial : Nat) ∧
        ∀ p ∈ run.steps, InInt64 (p.2 * p.1) := by
    intro m f hm0 hm20 hf
    rcases le_or_lt m 1 with h1 | h1
    · refine ⟨⟨1, []⟩, factorialRun_of_le_one m h1 f, ?_, by simp⟩
      have : m.toNat = 0 ∨ m.toNat = 1 := by omega
      rcases this with e | e <;> simp [e]
    · refine ⟨_, factorialRun_of_two_le m (by omega) (by omega) f hf, ?_, ?_⟩
      · have hlt := factorial_lt_of_le_twenty m.toNat (by omega)
        exact wrap64_of_inInt64 (by unfold InInt64; constructor <;> omega)
      · intro p hp
        simp only [List.mem_map, List.mem_range] at hp
        obtain ⟨j, hj, rfl⟩ := hp
        have hlt1 := factorial_lt_of_le_twenty (2 + j - 1) (by omega)
        have hlt2 := factorial_lt_of_le_twenty (2 + j) (by omega)
        have e : 2 + j - 1 = j + 1 := by omega
        have e2 : 2 + j = (j + 1) + 1 := by omega
        have hw : wrap64 (((2 + j - 1).factorial : Nat) : Int) = ((2 + j - 1).factorial : Nat) :=
          wrap64_of_inInt64 (by unfold InInt64; constructor <;> omega)
        have hprod : (((2 + j - 1).factorial : Nat) : Int) * ((2 + j : Nat) : Int)
            = ((2 + j).factorial : Nat) := by
          rw [e, e2, Nat.factorial_succ (j + 1)]; push_cast; ring
        show InInt64 (wrap64 (((2 + j - 1).factorial : Nat) : Int) * ((2 + j : Nat) : Int))
        rw [hw, hprod]
        unfold InInt64; constructor <;> omega
  refine ⟨?_, ?_, ?_⟩
  · obtain ⟨run, hrun, hres, _⟩ := key n fuel h0 h20 hfuel
    simp [factorial_go, hrun, hres]
  · obtain ⟨run, hrun, _, hsteps⟩ := key n fuel h0 h20 hfuel
    exact ⟨run, hrun, fun p hp => ⟨hsteps p hp, wrap64_of_inInt64 (hsteps p hp)⟩⟩
  · intro extra
    obtain ⟨run, hrun, hres, _⟩ := key 6 (6 + extra) (by omega) (by omega) (by simp)
    rw [factorial_go, hrun]
    show some run.result = some 720
    rw [hres]
    decide

theorem factorial_go_exact_upto_twenty_witness :
    (0 : Int) ≤ 20 ∧ (20 : Int) ≤ 20 ∧ (20 : Int).toNat ≤ 20 ∧
      factorial_go 20 20 = some 2432902008176640000 :=
  ⟨by decide, by decide, by decide,
    (factorial_go_exact_upto_twenty 20 (by decide) (by decide) 20 (by decide)).1⟩

/-- C9: for 0 ≤ n < 2^63 - 1, factorial_go returns n! reduced modulo 2^64 and read as a signed
64-bit integer; the result is the true factorial exactly when n ≤ 20, and
factorial_go(21) = -4249290049419214848. -/
theorem factorial_go_wraps (n : Int) (h0 : 0 ≤ n) (hmax : n < 2 ^ 63 - 1) (fuel : Nat)
    (hfuel : n.toNat ≤ fuel) :
    factorial_go fuel n = some (wrap64 (n.toNat.factorial : Nat)) ∧
    (factorial_go fuel n = some ((n.toNat.factorial : Nat) : Int) ↔ n ≤ 20) ∧
    ∀ extra : Nat, factorial_go (21 + extra) 21 = some (-4249290049419214848) := by
  have key : ∀ (m : Int) (f : Nat), 0 ≤ m → m < 2 ^ 63 - 1 → m.toNat ≤ f →
      factorial_go f m = some (wrap64 (m.toNat.factorial : Nat)) := by
    intro m f hm0 hm hf
    rcases le_or_lt m 1 with h1 | h1
    · have : m.toNat = 0 ∨ m.toNat = 1 := by omega
      rw [factorial_go, factorialRun_of_le_one m h1 f]
      rcases this with e | e <;> rw [e] <;> decide
    · rw [factorial_go, factorialRun_of_two_le m (by omega) hm f hf]
      rfl
  refine ⟨key n fuel h0 hmax hfuel, ?_, ?_⟩
  · rw [key n fuel h0 hmax hfuel]
    constructor
    · intro h
      by_contra hgt
      have hge := factorial_ge_of_twentyone_le n.toNat (by omega)
      have hin := inInt64_wrap64 (n.toNat.factorial : Nat)
      rw [Option.some.inj h] at hin
      unfold InInt64 at hin
      omega
    · intro hle
      have hlt := factorial_lt_of_le_twenty n.toNat (by omega)
      rw [wrap64_of_inInt64 (by unfold InInt64; constructor <;> omega)]
  · intro extra
    rw [key 21 (21 + extra) (by omega) (by norm_num) (by simp)]
    decide

theorem factorial_go_wraps_witness :
    (0 : Int) ≤ 21 ∧ (21 : Int) < 2 ^ 63 - 1 ∧ (21 : Int).toNat ≤ 21 ∧
      factorial_go 21 21 = some (wrap64 ((21 : Int).toNat.factorial : Nat)) :=
  ⟨by decide, by decide, by decide,
    (factorial_go_wraps 21 (by decide) (by decide) 21 (by decide)).1⟩

/-- C10: on every int64 input n < 2^63 - 1 factorial_go returns; for n ≤ 1 it returns 1 without
executing the loop body, and for n ≥ 2 it returns the wrapped factorial after the body has run
exactly n - 1 times, at the counter values 2, ..., n, whose increments do not overflow.  For n = 2^63 - 1 the increment of the counter
wraps to -2^63 and the loop never exits. -/
theorem factorial_go_terminates (n : Int) (hmin : -2 ^ 63 ≤ n) (hmax : n < 2 ^ 63 - 1)
    (fuel : Nat) (hfuel : n.toNat ≤ fuel) :
    (∃ v, factorial_go fuel n = some v) ∧
    (n ≤ 1 → ∀ f, factorialRun f n = some ⟨1, []⟩ ∧ factorial_go f n = some 1) ∧
    (2 ≤ n → ∃ run, factorialRun fuel n = some run ∧
      factorial_go fuel n = some run.result ∧
      run.result = wrap64 (n.toNat.factorial : Nat) ∧
      (run.steps.length : Int) = n - 1 ∧
      run.steps.map Prod.fst = (List.range (n.toNat - 1)).map (fun (j : Nat) => (j : Int) + 2) ∧
      ∀ i ∈ run.steps.map Prod.fst, 2 ≤ i ∧ i ≤ n ∧ wrap64 (i + 1) = i + 1) ∧
    wrap64 ((2 ^ 63 - 1) + 1) = -2 ^ 63 ∧
    ∀ f, factorialRun f (2 ^ 63 - 1) = none ∧ factorial_go f (2 ^ 63 - 1) = none := by
  have hnever : ∀ f, factorialRun f (2 ^ 63 - 1) = none := by
    intro f
    rw [factorialRun, if_neg (by norm_num)]
    exact factorialLoop_never_exits f 2 1 [] (by decide)
  refine ⟨?_, ?_, ?_, by decide, fun f => ⟨hnever f, by rw [factorial_go, hnever f]; rfl⟩⟩
  · rcases le_or_lt n 1 with h1 | h1
    · exact ⟨1, by simp [factorial_go, factorialRun_of_le_one n h1 fuel]⟩
    · exact ⟨_, by rw [factorial_go, factorialRun_of_two_le n (by omega) hmax fuel hfuel]; rfl⟩
  · intro h1 f
    exact ⟨factorialRun_of_le_one n h1 f, by rw [factorial_go, factorialRun_of_le_one n h1 f]; rfl⟩
  · intro h2
    refine ⟨_, factorialRun_of_two_le n h2 hmax fuel hfuel,
      by rw [factorial_go, factorialRun_of_two_le n h2 hmax fuel hfuel]; rfl, rfl, ?_, ?_, ?_⟩
    · simp only [List.length_map, List.length_range]
      omega
    · simp only [List.map_map]
      apply List.map_congr_left
      intro j _
      simp only [Function.comp_apply]
      push_cast; ring
    · intro i hi
      simp only [List.map_map, List.mem_map, List.mem_range, Function.comp_apply] at hi
      obtain ⟨j, hj, rfl⟩ := hi
      refine ⟨by push_cast; omega, by push_cast; omega, ?_⟩
      exact wrap64_of_inInt64 (by unfold InInt64; push_cast; constructor <;> omega)

theorem factorial_go_terminates_witness :
    (-2 ^ 63 : Int) ≤ 6 ∧ (6 : Int) < 2 ^ 63 - 1 ∧ (6 : Int).toNat ≤ 6 ∧
      factorialRun 6 6 = some ⟨720, [(2, 1), (3, 2), (4, 6), (5, 24), (6, 120)]⟩ ∧
      factorial_go 6 6 = some 720 ∧
      ∃ v, factorial_go 6 6 = some v :=
  ⟨by decide, by decide, by decide, by decide, by decide,
    (factorial_go_terminates 6 (by decide) (by decide) 6 (by decide)).1⟩

/-! ## The driver: shape of a run of `main` -/

theorem cStr_eq :
    setIndex (copy (make (goLen testStr + 1)) (goBytes testStr)) (goLen testStr) 0
      = .ok (goBytes testStr ++ [0]) := by decide

theorem main_eq (F : Foreign) (t : Timings) (fuel : Nat) :
    main F t fuel =
      (orOutOfFuel (factorial_go fuel 6)).bind fun goFact =>
      (orOutOfFuel (runBenchmarks t fuel)).bind fun bench =>
      .ok ([Event.println "ARM64 Assembly Module Demo on macOS",
          .println "=====================================",
          .callAdd 15 27,
          .printf "Addition: %d + %d = %d\n" [.int 15, .int 27, .int (F.add_asm 15 27)],
          .callMul 8 9,
          .printf "Multiplication: %d * %d = %d\n" [.int 8, .int 9, .int (F.multiply_asm 8 9)],
          .callFact 6,
          .printf "Factorial: %d! = %d\n" [.int 6, .int (F.factorial_asm 6)],
          .callStrlen (goBytes testStr ++ [0]),
          .printf "String length of '%s': %d\n"
            [.str testStr, .int (F.strlen_asm (goBytes testStr ++ [0]))],
          .callSumArray numbers 10,
          .printf "Sum of array %v: %d\n" [.ints numbers, .int (F.sum_array_asm numbers 10)],
          .println "\nComparison with Go implementations:",
          .printf "Go addition: %d + %d = %d (ASM: %d)\n"
            [.int 15, .int 27, .int 42, .int (F.add_asm 15 27)],
          .printf "Go multiplication: %d * %d = %d (ASM: %d)\n"
            [.int 8, .int 9, .int 72, .int (F.multiply_asm 8 9)],
          .printf "Go factorial: %d! = %d (ASM: %d)\n"
            [.int 6, .int goFact, .int (F.factorial_asm 6)],
          .printf "Go array sum: %d (ASM: %d)\n" [.int 55, .int (F.sum_array_asm numbers 10)]]
        ++ bench ++ [.println "\n✅ All assembly functions working correctly!"]) := by
  cases h1 : factorial_go fuel 6 <;> cases h2 : runBenchmarks t fuel <;>
    simp [main, cStr_eq, addrOf, numbers, bind, Except.bind, pure, Except.pure, h1, h2,
      orOutOfFuel, goSumLoop, wrap64, Id.run]

theorem runBenchmarks_shape (t : Timings) (fuel : Nat) (a b c e : List Event)
    (h1 : BenchmarkAddGo t.addGo fuel = some a) (h2 : BenchmarkAddASM t.addASM fuel = some b)
    (h3 : BenchmarkMultiplyGo t.mulGo fuel = some c)
    (h4 : BenchmarkMultiplyASM t.mulASM fuel = some e) :
    runBenchmarks t fuel = some ([Event.println "\nPerformance Benchmarks:",
      .println "======================"] ++ a ++ b ++ [.println ""] ++ c ++ e) := by
  rw [runBenchmarks, h1, h2, h3, h4]
  rfl

theorem mem_loop_events {body : Nat → Event} {r x : Event} {N : Nat}
    (h : x ∈ (List.range N).map body ++ [r]) : (∃ j, x = body j) ∨ x = r := by
  simp only [List.mem_append, List.mem_map, List.mem_singleton] at h
  rcases h with ⟨j, _, rfl⟩ | rfl
  · exact Or.inl ⟨j, rfl⟩
  · exact Or.inr rfl

theorem mem_runBenchmarks_events {a b c e : List Event} {p q r x : Event}
    (h : x ∈ [p, q] ++ a ++ b ++ [r] ++ c ++ e) :
    x = p ∨ x = q ∨ x = r ∨ x ∈ a ∨ x ∈ b ∨ x ∈ c ∨ x ∈ e := by
  simp only [List.mem_append, List.mem_cons, List.mem_singleton, List.not_mem_nil,
    or_false] at h
  tauto

theorem runBenchmarks_ok (t : Timings) (fuel : Nat) (hfuel : 10000000 < fuel) :
    ∃ bench, runBenchmarks t fuel = some bench ∧
      (∀ fmt args, Event.printf fmt args ∈ bench →
        ∃ d, args = [.int iterations, .dur d, .nsPerOp d iterations]) ∧
      (∀ mem, Event.callStrlen mem ∉ bench) ∧
      (∀ mem len, Event.callSumArray mem len ∉ bench) := by
  have h1 := benchmark_eq "Go Addition" (fun i => Event.goAdd i (wrap64 (i + 1)))
    t.addGo fuel hfuel
  have h2 := benchmark_eq "ASM Addition" (fun i => Event.callAdd i (wrap64 (i + 1)))
    t.addASM fuel hfuel
  have h3 := benchmark_eq "Go Multiplication"
    (fun i => Event.goMul (i.tmod 1000) ((wrap64 (i + 1)).tmod 1000)) t.mulGo fuel hfuel
  have h4 := benchmark_eq "ASM Multiplication"
    (fun i => Event.callMul (i.tmod 1000) ((wrap64 (i + 1)).tmod 1000)) t.mulASM fuel hfuel
  have kinds : ∀ x, x ∈ [Event.println "\nPerformance Benchmarks:",
        .println "======================"]
        ++ ((List.range 10000000).map
              (fun (j : Nat) => Event.goAdd (j : Int) (wrap64 ((j : Int) + 1)))
            ++ [benchReport "Go Addition" t.addGo])
        ++ ((List.range 10000000).map
              (fun (j : Nat) => Event.callAdd (j : Int) (wrap64 ((j : Int) + 1)))
            ++ [benchReport "ASM Addition" t.addASM])
        ++ [.println ""]
        ++ ((List.range 10000000).map
              (fun (j : Nat) =>
                Event.goMul ((j : Int).tmod 1000) ((wrap64 ((j : Int) + 1)).tmod 1000))
            ++ [benchReport "Go Multiplication" t.mulGo])
        ++ ((List.range 10000000).map
              (fun (j : Nat) =>
                Event.callMul ((j : Int).tmod 1000) ((wrap64 ((j : Int) + 1)).tmod 1000))
            ++ [benchReport "ASM Multiplication" t.mulASM]) →
      (∃ s, x = .println s) ∨ (∃ l d, x = benchReport l d) ∨ (∃ u v, x = .goAdd u v) ∨
        (∃ u v, x = .callAdd u v) ∨ (∃ u v, x = .goMul u v) ∨ (∃ u v, x = .callMul u v) := by
    intro x hx
    rcases mem_runBenchmarks_events hx with h | h | h | h | h | h | h
    · exact Or.inl ⟨_, h⟩
    · exact Or.inl ⟨_, h⟩
    · exact Or.inl ⟨_, h⟩
    · rcases mem_loop_events h with ⟨j, hj⟩ | hr
      · exact Or.inr (Or.inr (Or.inl ⟨_, _, hj⟩))
      · exact Or.inr (Or.inl ⟨_, _, hr⟩)
    · rcases mem_loop_events h with ⟨j, hj⟩ | hr
      · exact Or.inr (Or.inr (Or.inr (Or.inl ⟨_, _, hj⟩)))
      · exact Or.inr (Or.inl ⟨_, _, hr⟩)
    · rcases mem_loop_events h with ⟨j, hj⟩ | hr
      · exact Or.inr (Or.inr (Or.inr (Or.inr (Or.inl ⟨_, _, hj⟩))))
      · exact Or.inr (Or.inl ⟨_, _, hr⟩)
    · rcases mem_loop_events h with ⟨j, hj⟩ | hr
      · exact Or.inr (Or.inr (Or.inr (Or.inr (Or.inr ⟨_, _, hj⟩))))
      · exact Or.inr (Or.inl ⟨_, _, hr⟩)
  refine ⟨_, runBenchmarks_shape t fuel _ _ _ _ h1 h2 h3 h4, ?_, ?_, ?_⟩
  · intro fmt args hmem
    rcases kinds _ hmem with ⟨_, h⟩ | ⟨l, d, h⟩ | ⟨_, _, h⟩ | ⟨_, _, h⟩ | ⟨_, _, h⟩ | ⟨_, _, h⟩
    · cases h
    · rw [benchReport, Event.printf.injEq] at h
      exact ⟨d, h.2⟩
    · cases h
    · cases h
    · cases h
    · cases h
  · intro mem hmem
    rcases kinds _ hmem with ⟨_, h⟩ | ⟨l, d, h⟩ | ⟨_, _, h⟩ | ⟨_, _, h⟩ | ⟨_, _, h⟩ | ⟨_, _, h⟩
    · cases h
    · rw [benchReport] at h; cases h
    · cases h
    · cases h
    · cases h
    · cases h
  · intro mem len hmem
    rcases kinds _ hmem with ⟨_, h⟩ | ⟨l, d, h⟩ | ⟨_, _, h⟩ | ⟨_, _, h⟩ | ⟨_, _, h⟩ | ⟨_, _, h⟩
    · cases h
    · rw [benchReport] at h; cases h
    · cases h
    · cases h
    · cases h
    · cases h

theorem factorial_go_six (fuel : Nat) (hfuel : 6 ≤ fuel) : factorial_go fuel 6 = some 720 := by
  rw [factorial_go, factorialRun_of_two_le 6 (by norm_num) (by norm_num) fuel (by simpa using hfuel)]
  decide

theorem main_ok (F : Foreign) (t : Timings) (fuel : Nat) (hfuel : 10000000 < fuel) :
    ∃ bench, runBenchmarks t fuel = some bench ∧
      (∀ fmt args, Event.printf fmt args ∈ bench →
        ∃ d, args = [.int iterations, .dur d, .nsPerOp d iterations]) ∧
      (∀ mem, Event.callStrlen mem ∉ bench) ∧
      (∀ mem len, Event.callSumArray mem len ∉ bench) ∧
      main F t fuel = .ok ([Event.println "ARM64 Assembly Module Demo on macOS",
          .println "=====================================",
          .callAdd 15 27,
          .printf "Addition: %d + %d = %d\n" [.int 15, .int 27, .int (F.add_asm 15 27)],
          .callMul 8 9,
          .printf "Multiplication: %d * %d = %d\n" [.int 8, .int 9, .int (F.multiply_asm 8 9)],
          .callFact 6,
          .printf "Factorial: %d! = %d\n" [.int 6, .int (F.factorial_asm 6)],
          .callStrlen (goBytes testStr ++ [0]),
          .printf "String length of '%s': %d\n"
            [.str testStr, .int (F.strlen_asm (goBytes testStr ++ [0]))],
          .callSumArray numbers 10,
          .printf "Sum of array %v: %d\n" [.ints numbers, .int (F.sum_array_asm numbers 10)],
          .println "\nComparison with Go implementations:",
          .printf "Go addition: %d + %d = %d (ASM: %d)\n"
            [.int 15, .int 27, .int 42, .int (F.add_asm 15 27)],
          .printf "Go multiplication: %d * %d = %d (ASM: %d)\n"
            [.int 8, .int 9, .int 72, .int (F.multiply_asm 8 9)],
          .printf "Go factorial: %d! = %d (ASM: %d)\n"
            [.int 6, .int 720, .int (F.factorial_asm 6)],
          .printf "Go array sum: %d (ASM: %d)\n" [.int 55, .int (F.sum_array_asm numbers 10)]]
        ++ bench ++ [.println "\n✅ All assembly functions working correctly!"]) := by
  obtain ⟨bench, hb, p1, p2, p3⟩ := runBenchmarks_ok t fuel hfuel
  refine ⟨bench, hb, p1, p2, p3, ?_⟩
  rw [main_eq, factorial_go_six fuel (by omega), hb]
  rfl

theorem main_never_index_panics (F : Foreign) (t : Timings) (fuel : Nat) :
    main F t fuel ≠ .error .indexOutOfRange := by
  rw [main_eq]
  cases factorial_go fuel 6 <;> cases runBenchmarks t fuel <;>
    simp [orOutOfFuel, Except.bind]

theorem goSumLoop_eq_foldl (xs : List Int) :
    goSumLoop xs = xs.foldl (fun acc num => wrap64 (acc + num)) 0 := by
  have h : ∀ (l : List Int) (init : Int),
      (forIn l init (fun num r => (ForInStep.yield (wrap64 (r + num)) : Id (ForInStep Int))) : Id Int)
        = l.foldl (fun acc num => wrap64 (acc + num)) init := by
    intro l
    induction l with
    | nil => intro init; rfl
    | cons a l ih => intro init; rw [List.forIn_cons]; exact ih _
  exact h xs 0

/-! ## The driver: sample results -/

/-- C1: on the sample operands of the demonstration the assembly routines, as the specification
describes them, agree with the Go computations: add_asm(15, 27) = 15 + 27,
multiply_asm(8, 9) = 8 * 9, factorial_asm(6) = factorial_go(6), and sum_array_asm on the slice
[1, ..., 10] with length 10 equals the sum computed by the Go loop. -/
theorem sample_results_agree :
    add_asm 15 27 = wrap64 (15 + 27) ∧
    multiply_asm 8 9 = wrap64 (8 * 9) ∧
    (∀ extra : Nat, factorial_go (6 + extra) 6 = some (factorial_asm 6)) ∧
    addrOf numbers 0 = .ok numbers ∧
    wrap64 numbers.length = 10 ∧
    sum_array_asm numbers (wrap64 numbers.length) = some (goSumLoop numbers) := by
  refine ⟨rfl, rfl, ?_, by decide, by decide, by decide⟩
  intro extra
  rw [factorial_go_six (6 + extra) (by omega)]
  decide

/-- C3: the Go loop that starts goSum at 0 and adds each element of numbers in order yields 55
for numbers = [1, 2, 3, 4, 5, 6, 7, 8, 9, 10]. -/
theorem goSumLoop_numbers :
    numbers = [1, 2, 3, 4, 5, 6, 7, 8, 9, 10] ∧
    (∀ xs : List Int, goSumLoop xs = xs.foldl (fun acc num => wrap64 (acc + num)) 0) ∧
    goSumLoop numbers = 55 := by
  refine ⟨rfl, goSumLoop_eq_foldl, ?_⟩
  rw [goSumLoop_eq_foldl]
  simp [numbers, List.foldl, wrap64]

/-- C4: len(testStr) = 22; the buffer cStr built by the driver has length 23, holds the bytes of
the literal at positions 0..21 and 0 at position 22, has no zero byte before index 22, and so
its first zero byte is at index 22. -/
theorem cStr_first_zero_at_22 :
    goLen testStr = 22 ∧
    ∃ cStr, setIndex (copy (make (goLen testStr + 1)) (goBytes testStr)) (goLen testStr) 0
        = .ok cStr ∧
      cStr.length = goLen testStr + 1 ∧
      cStr.take 22 = goBytes testStr ∧
      cStr[22]? = some 0 ∧
      0 ∉ cStr.take 22 ∧
      addrOf cStr 0 = .ok cStr ∧
      firstZero cStr = some 22 := by
  refine ⟨by decide, goBytes testStr ++ [0], cStr_eq, ?_, ?_, ?_, ?_, ?_, ?_⟩ <;> decide

/-! ## The driver: what is called and what is reported -/

/-- C6, as stated, fails for string length: in the run of main with the foreign routines that
return 0, no printed line carries the natively computed length 22 of the literal. -/
theorem main_prints_no_native_strlen :
    goLen testStr = 22 ∧
    ∃ evs, main zeroForeign ⟨0, 0, 0, 0⟩ 10000001 = .ok evs ∧
      ∀ fmt args, Event.printf fmt args ∈ evs → Arg.int 22 ∉ args := by
  refine ⟨by decide, ?_⟩
  obtain ⟨bench, _, hprint, _, _, hmain⟩ := main_ok zeroForeign ⟨0, 0, 0, 0⟩ 10000001 (by decide)
  refine ⟨_, hmain, ?_⟩
  intro fmt args hmem
  simp only [List.mem_append, List.mem_cons, List.mem_singleton, List.not_mem_nil,
    or_false, reduceCtorEq, false_or, Event.printf.injEq, zeroForeign] at hmem
  rcases hmem with h | h
  · rcases h with ⟨_, rfl⟩ | ⟨_, rfl⟩ | ⟨_, rfl⟩ | ⟨_, rfl⟩ | ⟨_, rfl⟩ | ⟨_, rfl⟩ | ⟨_, rfl⟩ |
      ⟨_, rfl⟩ | ⟨_, rfl⟩ <;> decide
  · obtain ⟨d, rfl⟩ := hprint fmt args h
    simp [iterations]

/-- C6 (amended): for addition, multiplication, factorial and array sum, main calls the assembly
routine on the sample input and prints one line that carries both the natively computed result
for that input and the assembly routine's result; for string length it calls the assembly
routine on the buffer built from the literal and prints the literal with the assembly routine's
result only.  No natively computed length is printed: every printed line is one of the nine
lines of the demonstration or a benchmark report, and a printed integer equal to the length 22
of the literal can only be the result of an assembly routine. -/
theorem main_reports_results (F : Foreign) (t : Timings) (fuel : Nat)
    (hfuel : 10000000 < fuel) :
    ∃ evs, main F t fuel = .ok evs ∧
      Event.callAdd 15 27 ∈ evs ∧
      Event.printf "Go addition: %d + %d = %d (ASM: %d)\n"
        [.int 15, .int 27, .int (wrap64 (15 + 27)), .int (F.add_asm 15 27)] ∈ evs ∧
      Event.callMul 8 9 ∈ evs ∧
      Event.printf "Go multiplication: %d * %d = %d (ASM: %d)\n"
        [.int 8, .int 9, .int (wrap64 (8 * 9)), .int (F.multiply_asm 8 9)] ∈ evs ∧
      Event.callFact 6 ∈ evs ∧
      (∃ goFact, factorial_go fuel 6 = some goFact ∧
        Event.printf "Go factorial: %d! = %d (ASM: %d)\n"
          [.int 6, .int goFact, .int (F.factorial_asm 6)] ∈ evs) ∧
      Event.callSumArray numbers 10 ∈ evs ∧
      Event.printf "Go array sum: %d (ASM: %d)\n"
        [.int (goSumLoop numbers), .int (F.sum_array_asm numbers 10)] ∈ evs ∧
      Event.callStrlen (goBytes testStr ++ [0]) ∈ evs ∧
      Event.printf "String length of '%s': %d\n"
        [.str testStr, .int (F.strlen_asm (goBytes testStr ++ [0]))] ∈ evs ∧
      (∀ fmt args, Event.printf fmt args ∈ evs → Arg.str testStr ∈ args →
        args = [.str testStr, .int (F.strlen_asm (goBytes testStr ++ [0]))]) ∧
      (∀ fmt args, Event.printf fmt args ∈ evs →
        Event.printf fmt args ∈
          [Event.printf "Addition: %d + %d = %d\n" [.int 15, .int 27, .int (F.add_asm 15 27)],
            .printf "Multiplication: %d * %d = %d\n"
              [.int 8, .int 9, .int (F.multiply_asm 8 9)],
            .printf "Factorial: %d! = %d\n" [.int 6, .int (F.factorial_asm 6)],
            .printf "String length of '%s': %d\n"
              [.str testStr, .int (F.strlen_asm (goBytes testStr ++ [0]))],
            .printf "Sum of array %v: %d\n"
              [.ints numbers, .int (F.sum_array_asm numbers 10)],
            .printf "Go addition: %d + %d = %d (ASM: %d)\n"
              [.int 15, .int 27, .int 42, .int (F.add_asm 15 27)],
            .printf "Go multiplication: %d * %d = %d (ASM: %d)\n"
              [.int 8, .int 9, .int 72, .int (F.multiply_asm 8 9)],
            .printf "Go factorial: %d! = %d (ASM: %d)\n"
              [.int 6, .int 720, .int (F.factorial_asm 6)],
            .printf "Go array sum: %d (ASM: %d)\n"
              [.int 55, .int (F.sum_array_asm numbers 10)]] ∨
        ∃ d, args = [.int iterations, .dur d, .nsPerOp d iterations]) ∧
      goLen testStr = 22 ∧
      ∀ fmt args, Event.printf fmt args ∈ evs → Arg.int (goLen testStr) ∈ args →
        F.add_asm 15 27 = 22 ∨ F.multiply_asm 8 9 = 22 ∨ F.factorial_asm 6 = 22 ∨
          F.strlen_asm (goBytes testStr ++ [0]) = 22 ∨ F.sum_array_asm numbers 10 = 22 := by
  obtain ⟨bench, _, hprint, _, _, hmain⟩ := main_ok F t fuel hfuel
  have h42 : wrap64 (15 + 27) = 42 := by decide
  have h72 : wrap64 (8 * 9) = 72 := by decide
  have h55 : goSumLoop numbers = 55 := by
    rw [goSumLoop_eq_foldl]; simp [numbers, List.foldl, wrap64]
  rw [h42, h72, h55]
  refine ⟨_, hmain, by simp, by simp, by simp, by simp, by simp,
    ⟨720, factorial_go_six fuel (by omega), by simp⟩, by simp, by simp, by simp, by simp,
    ?_, ?_, by decide, ?_⟩
  · intro fmt args hmem hstr
    simp only [List.mem_append, List.mem_cons, List.mem_singleton, List.not_mem_nil,
      or_false, reduceCtorEq, false_or, Event.printf.injEq] at hmem
    rcases hmem with h | h
    · rcases h with ⟨_, rfl⟩ | ⟨_, rfl⟩ | ⟨_, rfl⟩ | ⟨_, rfl⟩ | ⟨_, rfl⟩ | ⟨_, rfl⟩ | ⟨_, rfl⟩ |
        ⟨_, rfl⟩ | ⟨_, rfl⟩
      all_goals first
        | rfl
        | (exfalso; simp at hstr)
    · obtain ⟨d, rfl⟩ := hprint fmt args h
      simp at hstr
  · intro fmt args hmem
    simp only [List.mem_append, List.mem_cons, List.mem_singleton, List.not_mem_nil,
      or_false, reduceCtorEq, false_or, Event.printf.injEq] at hmem
    rcases hmem with h | h
    · left
      simp only [List.mem_cons, List.mem_singleton, List.not_mem_nil, or_false,
        Event.printf.injEq]
      exact h
    · exact Or.inr (hprint fmt args h)
  · intro fmt args hmem h22
    have hlen : ((goLen testStr : Nat) : Int) = 22 := by decide
    rw [hlen] at h22
    simp only [List.mem_append, List.mem_cons, List.mem_singleton, List.not_mem_nil,
      or_false, reduceCtorEq, false_or, Event.printf.injEq] at hmem
    rcases hmem with h | h
    · rcases h with ⟨_, rfl⟩ | ⟨_, rfl⟩ | ⟨_, rfl⟩ | ⟨_, rfl⟩ | ⟨_, rfl⟩ | ⟨_, rfl⟩ | ⟨_, rfl⟩ |
        ⟨_, rfl⟩ | ⟨_, rfl⟩
      all_goals
        simp at h22
        rw [← h22]
        simp
    · obtain ⟨d, rfl⟩ := hprint fmt args h
      simp [iterations] at h22

theorem main_reports_results_witness :
    10000000 < 10000001 ∧
    ∃ evs, main zeroForeign ⟨0, 0, 0, 0⟩ 10000001 = .ok evs ∧
      Event.callAdd 15 27 ∈ evs ∧
      Event.printf "Go addition: %d + %d = %d (ASM: %d)\n"
        [.int 15, .int 27, .int 42, .int 0] ∈ evs := by
  refine ⟨by decide, ?_⟩
  obtain ⟨evs, h, h1, h2, _⟩ := main_reports_results zeroForeign ⟨0, 0, 0, 0⟩ 10000001 (by decide)
  exact ⟨evs, h, h1, h2⟩

/-- C7: every slice index main evaluates is in bounds (cStr has length 23, so the store at
index 22 and the address of element 0 pass the bounds check; numbers has length 10, so the
address of element 0 does), the buffer passed to strlen_asm contains a zero byte, the length
passed to sum_array_asm is the number of elements of numbers, and main never stops with an
index-out-of-range panic. -/
theorem main_indices_in_bounds (F : Foreign) (t : Timings) (fuel : Nat)
    (hfuel : 10000000 < fuel) :
    goLen testStr = 22 ∧
    (copy (make (goLen testStr + 1)) (goBytes testStr)).length = 23 ∧
    (∃ cStr, setIndex (copy (make (goLen testStr + 1)) (goBytes testStr)) (goLen testStr) 0
        = .ok cStr ∧ cStr.length = 23 ∧ addrOf cStr 0 = .ok cStr ∧ 0 ∈ cStr) ∧
    numbers.length = 10 ∧
    addrOf numbers 0 = .ok numbers ∧
    (∀ (G : Foreign) (u : Timings) (f : Nat), main G u f ≠ .error .indexOutOfRange) ∧
    ∃ evs, main F t fuel = .ok evs ∧
      (∃ mem, Event.callStrlen mem ∈ evs) ∧
      (∀ mem, Event.callStrlen mem ∈ evs → mem.length = 23 ∧ 0 ∈ mem) ∧
      (∃ mem len, Event.callSumArray mem len ∈ evs) ∧
      (∀ mem len, Event.callSumArray mem len ∈ evs →
        mem = numbers ∧ len = mem.length ∧ len = 10) := by
  obtain ⟨bench, _, _, hstrlen, hsum, hmain⟩ := main_ok F t fuel hfuel
  refine ⟨by decide, by decide, ⟨goBytes testStr ++ [0], cStr_eq, by decide, by decide,
    by decide⟩, by decide, by decide, main_never_index_panics, _, hmain,
    ⟨goBytes testStr ++ [0], by simp⟩, ?_, ⟨numbers, 10, by simp⟩, ?_⟩
  · intro mem hmem
    simp only [List.mem_append, List.mem_cons, List.mem_singleton, List.not_mem_nil,
      or_false, reduceCtorEq, false_or, Event.callStrlen.injEq] at hmem
    rcases hmem with rfl | h
    · exact ⟨by decide, by decide⟩
    · exact absurd h (hstrlen mem)
  · intro mem len hmem
    simp only [List.mem_append, List.mem_cons, List.mem_singleton, List.not_mem_nil,
      or_false, reduceCtorEq, false_or, Event.callSumArray.injEq] at hmem
    rcases hmem with ⟨rfl, rfl⟩ | h
    · exact ⟨rfl, by decide, rfl⟩
    · exact absurd h (hsum mem len)

theorem main_indices_in_bounds_witness :
    10000000 < 10000001 ∧
    main zeroForeign ⟨0, 0, 0, 0⟩ 10000001 ≠ .error .indexOutOfRange ∧
    ∃ evs, main zeroForeign ⟨0, 0, 0, 0⟩ 10000001 = .ok evs ∧
      ∃ mem, Event.callStrlen mem ∈ evs := by
  obtain ⟨_, _, _, _, _, hne, evs, hevs, hex, _⟩ :=
    main_indices_in_bounds zeroForeign ⟨0, 0, 0, 0⟩ 10000001 (by decide)
  exact ⟨by decide, hne _ _ _, evs, hevs, hex⟩

end GoAsm
